import Mathlib

/-!
Verification of the log-pattern progress monitor and test-result accumulator
of the browser-automation test scripts.

The definitions below are shallow embeddings of:
  * `GenerationProgressMonitor` (tests/e2e/content_generation_flow_test.py):
    regex scraping of console lines, two timestamp mappings and a
    monotone "last pass seen" watermark;
  * `wait_for_pass_transition` and `test_no_hang_between_passes`
    (same file): polling loops over wall-clock time, embedded as
    discrete one-second time with the monitor state given as a function
    of time (the callbacks mutate it concurrently in the source);
  * `TestResults` (tests/e2e/02_comprehensive_tests.py).

Regular-expression searches are embedded as explicit left-to-right scans.
All three patterns have the form literal / digit-run / literal where the
character after each inner `(\d+)` group is a non-digit, so Python's
greedy matching coincides with taking the maximal digit run; `re.search`
returns the leftmost match, which the scan reproduces.
-/

/-- Maximal leading run of decimal digits of a character list, with the rest. -/
def takeDigits : List Char → List Char × List Char
  | [] => ([], [])
  | c :: cs =>
    if c.isDigit then
      let p := takeDigits cs
      (c :: p.1, p.2)
    else ([], c :: cs)

/-- Value of a decimal digit string, as computed by Python `int` on the group. -/
def digitsToNat (ds : List Char) : Nat :=
  ds.foldl (fun a c => a * 10 + (c.toNat - 48)) 0

/-- Strip an exact literal from the front of a character list. -/
def stripLit : List Char → List Char → Option (List Char)
  | [], cs => some cs
  | _ :: _, [] => none
  | p :: ps, c :: cs => if c = p then stripLit ps cs else none

/-- Match `\[runPasses\] After Pass (\d+): current_pass=(\d+)` at this position. -/
def matchAfterPassAt (cs : List Char) : Option (Nat × Nat) :=
  match stripLit (("[runPasses] After Pass ").data) cs with
  | none => none
  | some r1 =>
    match takeDigits r1 with
    | ([], _) => none
    | (ds, r2) =>
      match stripLit ((": current_pass=").data) r2 with
      | none => none
      | some r3 =>
        match takeDigits r3 with
        | ([], _) => none
        | (es, _) => some (digitsToNat ds, digitsToNat es)

/-- Match `\[Pass(\d+)\] COMPLETED pass (\d+)` at this position. -/
def matchPassCompletedAt (cs : List Char) : Option (Nat × Nat) :=
  match stripLit (("[Pass").data) cs with
  | none => none
  | some r1 =>
    match takeDigits r1 with
    | ([], _) => none
    | (ds, r2) =>
      match stripLit (("] COMPLETED pass ").data) r2 with
      | none => none
      | some r3 =>
        match takeDigits r3 with
        | ([], _) => none
        | (es, _) => some (digitsToNat ds, digitsToNat es)

/-- Match `Pass (\d+):` at this position. -/
def matchPassStartAt (cs : List Char) : Option Nat :=
  match stripLit (("Pass ").data) cs with
  | none => none
  | some r1 =>
    match takeDigits r1 with
    | ([], _) => none
    | (ds, r2) =>
      match r2 with
      | ':' :: _ => some (digitsToNat ds)
      | _ => none

/-- Leftmost match of a position matcher, as `re.search` finds it. -/
def searchAux {α : Type} (f : List Char → Option α) : List Char → Option α
  | [] => f []
  | c :: cs =>
    match f (c :: cs) with
    | some v => some v
    | none => searchAux f cs

/-- `re.search` for the pass-completion pattern of `on_console`. -/
def searchAfterPass (s : String) : Option (Nat × Nat) :=
  searchAux matchAfterPassAt s.data

/-- `re.search` for the `[PassX] COMPLETED pass X` pattern (print-only branch). -/
def searchPassCompleted (s : String) : Option (Nat × Nat) :=
  searchAux matchPassCompletedAt s.data

/-- `re.search` for the `Pass N:` pass-start pattern of `on_console`. -/
def searchPassStart (s : String) : Option Nat :=
  searchAux matchPassStartAt s.data

/-- Python-dict assignment `d[k] = v` on an insertion-ordered association list. -/
def dinsert (k v : Nat) : List (Nat × Nat) → List (Nat × Nat)
  | [] => [(k, v)]
  | (k1, v1) :: rest => if k1 = k then (k, v) :: rest else (k1, v1) :: dinsert k v rest

/-- Python-dict lookup `d[k]` / membership `k in d`. -/
def dlookup (k : Nat) : List (Nat × Nat) → Option Nat
  | [] => none
  | (k1, v1) :: rest => if k1 = k then some v1 else dlookup k rest

/-- Largest key of an association list, `0` when empty. -/
def maxKey (d : List (Nat × Nat)) : Nat :=
  d.foldr (fun p a => max p.1 a) 0

/-- State of `GenerationProgressMonitor` (content_generation_flow_test.py). -/
structure Monitor where
  console_logs : List String := []
  errors : List String := []
  pass_starts : List (Nat × Nat) := []
  pass_completes : List (Nat × Nat) := []
  last_pass_seen : Nat := 0
  last_ui_pass : Nat := 0
  deriving Repr, DecidableEq

/-- `GenerationProgressMonitor.__init__`. -/
def initMonitor : Monitor := {}

/-- `GenerationProgressMonitor.on_console`: append the line, record a
completion timestamp on the `After Pass X: current_pass=Y` pattern, and on the
`Pass N:` pattern record a start timestamp and raise the watermark when `N`
strictly exceeds it.  `now` stands for `time.time()` during the call. -/
def Monitor.on_console (m : Monitor) (text : String) (now : Nat) : Monitor :=
  let m1 := { m with console_logs := m.console_logs ++ [text] }
  let m2 :=
    match searchAfterPass text with
    | some p => { m1 with pass_completes := dinsert p.1 now m1.pass_completes }
    | none => m1
  match searchPassStart text with
  | some n =>
    if m2.last_pass_seen < n then
      { m2 with last_pass_seen := n, pass_starts := dinsert n now m2.pass_starts }
    else m2
  | none => m2

/-- `GenerationProgressMonitor.on_error`: append the error string. -/
def Monitor.on_error (m : Monitor) (e : String) : Monitor :=
  { m with errors := m.errors ++ [e] }

/-- One callback invocation on the monitor. -/
inductive MEvent where
  | console : String → Nat → MEvent
  | error : String → MEvent
  deriving Repr, DecidableEq

/-- Dispatch one callback. -/
def Monitor.step (m : Monitor) : MEvent → Monitor
  | .console s t => m.on_console s t
  | .error e => m.on_error e

/-- Run a sequence of callbacks from a given state. -/
def Monitor.runFrom (m : Monitor) : List MEvent → Monitor
  | [] => m
  | e :: es => (m.step e).runFrom es

/-- Run a sequence of callbacks on a freshly constructed monitor. -/
def runEvents (es : List MEvent) : Monitor :=
  initMonitor.runFrom es

/-- One record of `TestResults.tests` (02_comprehensive_tests.py). -/
structure TRecord where
  category : String
  name : String
  status : String
  details : String
  screenshot : Option String
  timestamp : String
  deriving Repr, DecidableEq

/-- State of `TestResults`. -/
structure TestResults where
  tests : List TRecord := []
  passed : Nat := 0
  failed : Nat := 0
  skipped : Nat := 0
  deriving Repr, DecidableEq

/-- `TestResults.add_result`: append the record; `PASS` bumps `passed`,
`FAIL` bumps `failed`, anything else bumps `skipped`. -/
def TestResults.add_result (r : TestResults) (category name status details : String)
    (screenshot : Option String) (timestamp : String) : TestResults :=
  let r1 := { r with
    tests := r.tests ++ [(⟨category, name, status, details, screenshot, timestamp⟩ : TRecord)] }
  if status = "PASS" then { r1 with passed := r1.passed + 1 }
  else if status = "FAIL" then { r1 with failed := r1.failed + 1 }
  else { r1 with skipped := r1.skipped + 1 }

/-- Result of `TestResults.summary` (the numeric fields). -/
structure TSummary where
  total : Nat
  passed : Nat
  failed : Nat
  skipped : Nat
  deriving Repr, DecidableEq

/-- `TestResults.summary`. -/
def TestResults.summary (r : TestResults) : TSummary :=
  ⟨r.tests.length, r.passed, r.failed, r.skipped⟩

/-- Arguments of one `add_result` call. -/
structure AddCall where
  category : String
  name : String
  status : String
  details : String
  screenshot : Option String
  timestamp : String
  deriving Repr, DecidableEq

/-- Run a sequence of `add_result` calls. -/
def TestResults.runAdds (r : TestResults) : List AddCall → TestResults
  | [] => r
  | c :: cs =>
    (r.add_result c.category c.name c.status c.details c.screenshot c.timestamp).runAdds cs

/-- The polling loop of `wait_for_pass_transition`, over discrete one-second
time.  `monAt t` is the monitor state the loop observes at second `t` (the
console callback mutates it concurrently in the source).  Each iteration
checks whether `toPass` has a recorded start; when `fromPass` has a recorded
completion it sleeps two extra seconds and re-checks; otherwise it sleeps one
second.  The `fuel` argument only bounds the recursion; one unit is spent per
iteration, and each iteration advances `t` by at least one, so any
`fuel ≥ timeout - t` makes the fuel branch unreachable. -/
def waitLoopF (monAt : Nat → Monitor) (fromPass toPass timeout : Nat) :
    Nat → Nat → Bool
  | _, 0 => false
  | t, fuel + 1 =>
    if t < timeout then
      if (dlookup toPass (monAt t).pass_starts).isSome then true
      else if (dlookup fromPass (monAt t).pass_completes).isSome then
        if (dlookup toPass (monAt (t + 2)).pass_starts).isSome then true
        else waitLoopF monAt fromPass toPass timeout (t + 3) fuel
      else waitLoopF monAt fromPass toPass timeout (t + 1) fuel
    else false

/-- `wait_for_pass_transition(page, monitor, from_pass, to_pass, timeout_seconds)`:
start the polling loop at the moment of the call (`t = 0`). -/
def wait_for_pass_transition (monAt : Nat → Monitor) (fromPass toPass : Nat)
    (timeout : Nat) : Bool :=
  waitLoopF monAt fromPass toPass timeout 0 timeout

/-- The polling loop of `test_no_hang_between_passes`, over discrete one-second
time.  `lc t` is `len(monitor.console_logs)` at second `t`.  Every five seconds
the loop reads the count; growth refreshes `lastAct` and `lastCount`; if more
than 120 seconds have passed since `lastAct` the stall is flagged (`false`);
the loop ends after 300 seconds with `true`.  One fuel unit per iteration;
fuel 61 covers the whole window from `t = 0`. -/
def hangLoopF (lc : Nat → Nat) : Nat → Nat → Nat → Nat → Bool
  | _, _, _, 0 => true
  | t, lastAct, lastCount, fuel + 1 =>
    if t < 300 then
      let c := lc t
      let lastAct2 := if lastCount < c then t else lastAct
      let lastCount2 := if lastCount < c then c else lastCount
      if 120 < t - lastAct2 then false
      else hangLoopF lc (t + 5) lastAct2 lastCount2 fuel
    else true

/-- `test_no_hang_between_passes(page, monitor)`: at the call, the last-activity
time is initialized to now and the log count to the current length. -/
def test_no_hang_between_passes (lc : Nat → Nat) : Bool :=
  hangLoopF lc 0 0 (lc 0) 61

/-- The record appended by one `add_result` call. -/
def AddCall.toRecord (c : AddCall) : TRecord :=
  ⟨c.category, c.name, c.status, c.details, c.screenshot, c.timestamp⟩

theorem runAdds_tests (cs : List AddCall) : ∀ r : TestResults,
    (r.runAdds cs).tests = r.tests ++ cs.map AddCall.toRecord := by
  induction cs with
  | nil => intro r; simp [TestResults.runAdds]
  | cons c cs ih =>
    intro r
    simp only [TestResults.runAdds, List.map_cons, ih]
    unfold TestResults.add_result AddCall.toRecord
    split <;> simp
    split <;> simp

theorem runAdds_passed (cs : List AddCall) : ∀ r : TestResults,
    (r.runAdds cs).passed = r.passed + cs.countP (fun c => c.status == "PASS") := by
  induction cs with
  | nil => intro r; simp [TestResults.runAdds]
  | cons c cs ih =>
    intro r
    simp only [TestResults.runAdds, List.countP_cons, ih]
    unfold TestResults.add_result
    by_cases h1 : c.status = "PASS"
    · simp [h1]; omega
    · by_cases h2 : c.status = "FAIL" <;> simp [h1, h2] <;> omega

theorem runAdds_failed (cs : List AddCall) : ∀ r : TestResults,
    (r.runAdds cs).failed = r.failed + cs.countP (fun c => c.status == "FAIL") := by
  induction cs with
  | nil => intro r; simp [TestResults.runAdds]
  | cons c cs ih =>
    intro r
    simp only [TestResults.runAdds, List.countP_cons, ih]
    unfold TestResults.add_result
    by_cases h1 : c.status = "PASS"
    · have h2 : c.status ≠ "FAIL" := by simp [h1]
      simp [h1, h2]
    · by_cases h2 : c.status = "FAIL" <;> simp [h1, h2] <;> omega

theorem runAdds_skipped (cs : List AddCall) : ∀ r : TestResults,
    (r.runAdds cs).skipped =
      r.skipped + cs.countP (fun c => !(c.status == "PASS") && !(c.status == "FAIL")) := by
  induction cs with
  | nil => intro r; simp [TestResults.runAdds]
  | cons c cs ih =>
    intro r
    simp only [TestResults.runAdds, List.countP_cons, ih]
    unfold TestResults.add_result
    by_cases h1 : c.status = "PASS"
    · simp [h1]
    · by_cases h2 : c.status = "FAIL" <;> simp [h1, h2] <;> omega

theorem status_countP_split (cs : List AddCall) :
    cs.countP (fun c => c.status == "PASS") + cs.countP (fun c => c.status == "FAIL") +
      cs.countP (fun c => !(c.status == "PASS") && !(c.status == "FAIL")) = cs.length := by
  induction cs with
  | nil => simp
  | cons c cs ih =>
    simp only [List.countP_cons, List.length_cons]
    by_cases h1 : c.status = "PASS"
    · have h2 : c.status ≠ "FAIL" := by simp [h1]
      simp [h1, h2]; omega
    · by_cases h2 : c.status = "FAIL" <;> simp [h1, h2] <;> omega

/-- Claim C10: for every sequence of `add_result` calls with arbitrary status
strings, `passed` counts the `"PASS"` calls, `failed` the `"FAIL"` calls, and
`skipped` every other status, so `passed + failed + skipped` always equals the
length of the recorded `tests` sequence. -/
theorem add_result_counts_any_status (cs : List AddCall) :
    (TestResults.runAdds {} cs).passed = cs.countP (fun c => c.status == "PASS") ∧
    (TestResults.runAdds {} cs).failed = cs.countP (fun c => c.status == "FAIL") ∧
    (TestResults.runAdds {} cs).skipped =
      cs.countP (fun c => !(c.status == "PASS") && !(c.status == "FAIL")) ∧
    (TestResults.runAdds {} cs).passed + (TestResults.runAdds {} cs).failed +
        (TestResults.runAdds {} cs).skipped = (TestResults.runAdds {} cs).tests.length := by
  have hp := runAdds_passed cs {}
  have hf := runAdds_failed cs {}
  have hs := runAdds_skipped cs {}
  have ht := runAdds_tests cs {}
  have hsplit := status_countP_split cs
  simp only [ht, List.nil_append, List.length_map]
  refine ⟨by simpa using hp, by simpa using hf, by simpa using hs, ?_⟩
  simp only [hp, hf, hs]
  simpa using hsplit

theorem countP_congr_of_mem {α : Type} {p q : α → Bool} :
    ∀ l : List α, (∀ a ∈ l, p a = q a) → l.countP p = l.countP q := by
  intro l
  induction l with
  | nil => intro _; rfl
  | cons a l ih =>
    intro h
    simp only [List.countP_cons, h a (by simp), ih (fun b hb => h b (by simp [hb]))]

/-- Claim C4 (counterexample): `add_result` accepts a status outside
{PASS, FAIL, SKIP} and records it verbatim, so not every recorded outcome's
status lies in that set. -/
theorem add_result_status_unconstrained_cex :
    ¬ (∀ q ∈ (TestResults.runAdds {}
          [(⟨"Authentication", "Login", "ERROR", "", none, "t0"⟩ : AddCall)]).tests,
        q.status = "PASS" ∨ q.status = "FAIL" ∨ q.status = "SKIP") := by
  decide

/-- Claim C4 (amended): when every `add_result` call carries a status in
{PASS, FAIL, SKIP} — as every call site of the script does — every recorded
outcome's status lies in that set, the summary's `passed`, `failed` and
`skipped` each equal the number of records carrying that status, and `total`
equals the length of the `tests` sequence. -/
theorem add_result_counts_valid_status (cs : List AddCall)
    (hall : ∀ c ∈ cs, c.status = "PASS" ∨ c.status = "FAIL" ∨ c.status = "SKIP") :
    (∀ q ∈ (TestResults.runAdds {} cs).tests,
        q.status = "PASS" ∨ q.status = "FAIL" ∨ q.status = "SKIP") ∧
    (TestResults.runAdds {} cs).summary.passed = cs.countP (fun c => c.status == "PASS") ∧
    (TestResults.runAdds {} cs).summary.failed = cs.countP (fun c => c.status == "FAIL") ∧
    (TestResults.runAdds {} cs).summary.skipped = cs.countP (fun c => c.status == "SKIP") ∧
    (TestResults.runAdds {} cs).summary.total = cs.length := by
  have hp := runAdds_passed cs {}
  have hf := runAdds_failed cs {}
  have hs := runAdds_skipped cs {}
  have ht := runAdds_tests cs {}
  refine ⟨?_, ?_, ?_, ?_, ?_⟩
  · intro q hq
    rw [ht] at hq
    simp only [List.nil_append, List.mem_map] at hq
    obtain ⟨c, hc, rfl⟩ := hq
    exact hall c hc
  · simpa [TestResults.summary] using hp
  · simpa [TestResults.summary] using hf
  · have hcong : cs.countP (fun c => !(c.status == "PASS") && !(c.status == "FAIL")) =
        cs.countP (fun c => c.status == "SKIP") := by
      refine countP_congr_of_mem cs ?_
      intro c hc
      rcases hall c hc with h | h | h <;> simp [h]
    simp only [TestResults.summary]
    rw [hs, hcong]
    simp
  · simp [TestResults.summary, ht]

/-- The concrete call sequence used to instantiate the amended C4 theorem. -/
def validStatusCalls : List AddCall :=
  [⟨"Auth", "a", "PASS", "", none, "t1"⟩,
   ⟨"Auth", "b", "FAIL", "", none, "t2"⟩,
   ⟨"Auth", "c", "SKIP", "", none, "t3"⟩]

/-- Claim C4 (witness): the amended theorem applied to one PASS, one FAIL and
one SKIP call. -/
theorem add_result_counts_valid_status_witness :
    (∀ q ∈ (TestResults.runAdds {} validStatusCalls).tests,
        q.status = "PASS" ∨ q.status = "FAIL" ∨ q.status = "SKIP") ∧
    (TestResults.runAdds {} validStatusCalls).summary = ⟨3, 1, 1, 1⟩ := by
  have h := add_result_counts_valid_status validStatusCalls (by decide)
  exact ⟨h.1, by decide⟩

/-- Claim C2: `last_pass_seen` is a monotone watermark: a single `on_console`
call never decreases it, a `Pass N:` line with `N` at most the current value
leaves it unchanged, and it is non-decreasing across any run of console
callbacks. -/
theorem last_pass_seen_monotone :
    (∀ (m : Monitor) (line : String) (t : Nat),
        m.last_pass_seen ≤ (m.on_console line t).last_pass_seen) ∧
    (∀ (m : Monitor) (line : String) (t n : Nat),
        searchPassStart line = some n → n ≤ m.last_pass_seen →
        (m.on_console line t).last_pass_seen = m.last_pass_seen) ∧
    (∀ (m : Monitor) (es : List MEvent),
        m.last_pass_seen ≤ (m.runFrom es).last_pass_seen) := by
  have hstep : ∀ (m : Monitor) (line : String) (t : Nat),
      m.last_pass_seen ≤ (m.on_console line t).last_pass_seen := by
    intro m line t
    unfold Monitor.on_console
    cases h1 : searchAfterPass line <;> cases h2 : searchPassStart line <;>
      dsimp only [] <;> try split
    all_goals simp
    all_goals omega
  refine ⟨hstep, ?_, ?_⟩
  · intro m line t n h2 hle
    unfold Monitor.on_console
    cases h1 : searchAfterPass line <;> simp only [h2] <;>
      rw [if_neg (by simp; omega)]
  · intro m es
    induction es generalizing m with
    | nil => simp [Monitor.runFrom]
    | cons e es ih =>
      refine le_trans ?_ (ih (m.step e))
      cases e with
      | console s t => exact hstep m s t
      | error s => simp [Monitor.step, Monitor.on_error]

/-- Claim C2 (witness): a `Pass 3:` line raises the fresh monitor's watermark
and leaves a watermark of 5 unchanged. -/
theorem last_pass_seen_monotone_witness :
    initMonitor.last_pass_seen ≤ (initMonitor.on_console "Pass 3: x" 0).last_pass_seen ∧
    (({ last_pass_seen := 5 } : Monitor).on_console "Pass 3: x" 0).last_pass_seen =
      ({ last_pass_seen := 5 } : Monitor).last_pass_seen := by
  refine ⟨last_pass_seen_monotone.1 initMonitor "Pass 3: x" 0, ?_⟩
  exact last_pass_seen_monotone.2.1 _ "Pass 3: x" 0 3 (by decide) (by decide)

/-- Claim C3: no invariant ties the two mappings — after a concrete console
sequence, pass 8 has a recorded completion but no recorded start. -/
theorem completed_pass_without_start :
    ∃ (es : List MEvent) (k : Nat),
      (dlookup k (runEvents es).pass_completes).isSome = true ∧
      dlookup k (runEvents es).pass_starts = none := by
  refine ⟨[.console "Pass 9: go" 0,
           .console "[runPasses] After Pass 8: current_pass=9" 1], 8, ?_, ?_⟩ <;> decide

/-- Claim C5: the literal end-to-end scenario — the completion line records
`pass_completes[8]`, then the `Pass 9:` line records `pass_starts[9]` and
leaves `last_pass_seen = 9`. -/
theorem literal_scenario_pass8_pass9 (t1 t2 : Nat) :
    dlookup 8 (initMonitor.on_console "[runPasses] After Pass 8: current_pass=9"
        t1).pass_completes = some t1 ∧
    dlookup 9 ((initMonitor.on_console "[runPasses] After Pass 8: current_pass=9"
        t1).on_console "Pass 9: Optimizing flow" t2).pass_starts = some t2 ∧
    ((initMonitor.on_console "[runPasses] After Pass 8: current_pass=9"
        t1).on_console "Pass 9: Optimizing flow" t2).last_pass_seen = 9 :=
  ⟨rfl, rfl, rfl⟩

/-- Claim C7: a console line matching none of the three patterns only appends
the raw line to `console_logs`; the two mappings, the watermark, the error
list and the UI field are untouched, and nothing fails. -/
theorem on_console_unmatched_frame (m : Monitor) (line : String) (t : Nat)
    (h1 : searchAfterPass line = none) (_h2 : searchPassCompleted line = none)
    (h3 : searchPassStart line = none) :
    m.on_console line t = { m with console_logs := m.console_logs ++ [line] } := by
  unfold Monitor.on_console
  rw [h1, h3]

/-- Claim C7 (witness): the frame theorem applied to a line matching no
pattern. -/
theorem on_console_unmatched_frame_witness :
    searchAfterPass "hello world" = none ∧
    searchPassCompleted "hello world" = none ∧
    searchPassStart "hello world" = none ∧
    initMonitor.on_console "hello world" 0 =
      { initMonitor with console_logs := ["hello world"] } := by
  refine ⟨by decide, by decide, by decide, ?_⟩
  exact on_console_unmatched_frame initMonitor "hello world" 0 (by decide) (by decide) (by decide)

theorem maxKey_dinsert (n t : Nat) : ∀ d : List (Nat × Nat),
    maxKey (dinsert n t d) = max n (maxKey d) := by
  intro d
  induction d with
  | nil => simp [dinsert, maxKey]
  | cons p rest ih =>
    obtain ⟨k1, v1⟩ := p
    by_cases h : k1 = n
    · subst h
      simp [dinsert, maxKey]
    · simp only [dinsert, if_neg h, maxKey, List.foldr_cons]
      have : maxKey (dinsert n t rest) = max n (maxKey rest) := ih
      simp only [maxKey] at this
      rw [this]
      omega

theorem step_preserves_watermark_eq (m : Monitor) (e : MEvent)
    (h : m.last_pass_seen = maxKey m.pass_starts) :
    (m.step e).last_pass_seen = maxKey (m.step e).pass_starts := by
  cases e with
  | error s => simpa [Monitor.step, Monitor.on_error] using h
  | console line t =>
    simp only [Monitor.step]
    unfold Monitor.on_console
    cases h1 : searchAfterPass line <;> cases h2 : searchPassStart line <;>
      simp only [] <;> try split
    all_goals simp_all [maxKey_dinsert]
    all_goals omega

/-- Claim C9: after any sequence of `on_console` and `on_error` callbacks on a
fresh monitor, `last_pass_seen` equals the largest key of `pass_starts`
(`0` when the mapping is empty). -/
theorem last_pass_seen_eq_maxKey (es : List MEvent) :
    (runEvents es).last_pass_seen = maxKey (runEvents es).pass_starts := by
  have gen : ∀ (m : Monitor), m.last_pass_seen = maxKey m.pass_starts →
      (m.runFrom es).last_pass_seen = maxKey (m.runFrom es).pass_starts := by
    induction es with
    | nil => intro m h; simpa [Monitor.runFrom] using h
    | cons e es ih =>
      intro m h
      exact ih (m.step e) (step_preserves_watermark_eq m e h)
  exact gen initMonitor rfl

theorem waitLoopF_complete (monAt : Nat → Monitor) (fromPass toPass timeout : Nat)
    (hmono : ∀ s u, s ≤ u → (dlookup toPass (monAt s).pass_starts).isSome = true →
      (dlookup toPass (monAt u).pass_starts).isSome = true) :
    ∀ (fuel t : Nat), timeout ≤ t + fuel →
      (∃ s, t ≤ s ∧ s < timeout ∧ (dlookup toPass (monAt s).pass_starts).isSome = true) →
      waitLoopF monAt fromPass toPass timeout t fuel = true := by
  intro fuel
  induction fuel with
  | zero =>
    intro t hfuel hex
    obtain ⟨s, hts, hst, _⟩ := hex
    omega
  | succ fuel ih =>
    intro t hfuel hex
    obtain ⟨s, hts, hst, hs⟩ := hex
    unfold waitLoopF
    rw [if_pos (by omega)]
    by_cases h0 : (dlookup toPass (monAt t).pass_starts).isSome = true
    · rw [if_pos h0]
    · rw [if_neg h0]
      have hlt : t < s := by
        rcases Nat.lt_or_ge t s with h | h
        · exact h
        · exact absurd (hmono s t h hs) h0
      by_cases hc : (dlookup fromPass (monAt t).pass_completes).isSome = true
      · rw [if_pos hc]
        by_cases h2 : (dlookup toPass (monAt (t + 2)).pass_starts).isSome = true
        · rw [if_pos h2]
        · rw [if_neg h2]
          have hlt2 : t + 2 < s := by
            rcases Nat.lt_or_ge (t + 2) s with h | h
            · exact h
            · exact absurd (hmono s (t + 2) h hs) h2
          exact ih (t + 3) (by omega) ⟨s, by omega, hst, hs⟩
      · rw [if_neg hc]
        exact ih (t + 1) (by omega) ⟨s, by omega, hst, hs⟩

theorem waitLoopF_sound (monAt : Nat → Monitor) (fromPass toPass timeout : Nat) :
    ∀ (fuel t : Nat), waitLoopF monAt fromPass toPass timeout t fuel = true →
      ∃ s, s < timeout + 2 ∧ (dlookup toPass (monAt s).pass_starts).isSome = true := by
  intro fuel
  induction fuel with
  | zero => intro t h; simp [waitLoopF] at h
  | succ fuel ih =>
    intro t h
    unfold waitLoopF at h
    by_cases ht : t < timeout
    · rw [if_pos ht] at h
      by_cases h0 : (dlookup toPass (monAt t).pass_starts).isSome = true
      · exact ⟨t, by omega, h0⟩
      · rw [if_neg h0] at h
        by_cases hc : (dlookup fromPass (monAt t).pass_completes).isSome = true
        · rw [if_pos hc] at h
          by_cases h2 : (dlookup toPass (monAt (t + 2)).pass_starts).isSome = true
          · exact ⟨t + 2, by omega, h2⟩
          · rw [if_neg h2] at h
            exact ih (t + 3) h
        · rw [if_neg hc] at h
          exact ih (t + 1) h
    · rw [if_neg ht] at h
      exact absurd h (by simp)

/-- Claim C1 (amended): assuming starts are never removed (the monitor only
inserts), the transition check succeeds exactly on the presence of pass B's
start, timed from the moment of the call rather than from pass A's completion:
a start of B recorded strictly before the timeout elapses guarantees success,
and success guarantees B's start within `timeout + 2` seconds of the call (the
slack coming from the extra two-second grace sleep taken after observing A's
completion).  A's completion timestamp itself plays no other role. -/
theorem wait_for_pass_transition_characterization (monAt : Nat → Monitor)
    (fromPass toPass timeout : Nat)
    (hmono : ∀ s u, s ≤ u → (dlookup toPass (monAt s).pass_starts).isSome = true →
      (dlookup toPass (monAt u).pass_starts).isSome = true) :
    ((∃ s, s < timeout ∧ (dlookup toPass (monAt s).pass_starts).isSome = true) →
      wait_for_pass_transition monAt fromPass toPass timeout = true) ∧
    (wait_for_pass_transition monAt fromPass toPass timeout = true →
      ∃ s, s < timeout + 2 ∧ (dlookup toPass (monAt s).pass_starts).isSome = true) := by
  constructor
  · intro ⟨s, hst, hs⟩
    exact waitLoopF_complete monAt fromPass toPass timeout hmono timeout 0 (by omega)
      ⟨s, by omega, hst, hs⟩
  · exact waitLoopF_sound monAt fromPass toPass timeout timeout 0

/-- Monitor trace in which pass 9 has a start from the beginning and pass 8
never completes. -/
def startsOnlyTrace : Nat → Monitor :=
  fun _ => { initMonitor with pass_starts := [(9, 0)] }

/-- Claim C1 (counterexample): the check from pass 8 to pass 9 succeeds even
though pass 8 never acquires a completion timestamp, so success is not tied to
a window after A's completion. -/
theorem wait_for_pass_transition_no_complete_cex :
    wait_for_pass_transition startsOnlyTrace 8 9 180 = true ∧
    (startsOnlyTrace 0).pass_completes = [] ∧
    (startsOnlyTrace 300).pass_completes = [] :=
  ⟨rfl, rfl, rfl⟩

/-- Monitor trace used to instantiate the amended C1 theorem. -/
def startsWitnessTrace : Nat → Monitor :=
  fun _ => { initMonitor with pass_starts := [(9, 7)] }

/-- Claim C1 (witness): the characterization applied to a trace where pass 9's
start is visible from second 0. -/
theorem wait_for_pass_transition_characterization_witness :
    wait_for_pass_transition startsWitnessTrace 8 9 180 = true :=
  (wait_for_pass_transition_characterization startsWitnessTrace 8 9 180
    (fun _ _ _ h => h)).1 ⟨0, by omega, rfl⟩

theorem hangLoopF_steady (lc : Nat → Nat)
    (hmono : ∀ a b, a ≤ b → lc a ≤ lc b)
    (hsteady : ∀ s, s < 181 → lc s < lc (s + 120)) :
    ∀ (fuel t lastAct lastCount : Nat),
      lastAct ≤ t → 5 ∣ t → 5 ∣ lastAct → lc lastAct = lastCount →
      hangLoopF lc t lastAct lastCount fuel = true := by
  intro fuel
  induction fuel with
  | zero => intro t lastAct lastCount _ _ _ _; rfl
  | succ fuel ih =>
    intro t lastAct lastCount h1 h2 h3 h4
    unfold hangLoopF
    by_cases ht : t < 300
    · rw [if_pos ht]
      dsimp only []
      by_cases hg : lastCount < lc t
      · simp only [if_pos hg, Nat.sub_self]
        rw [if_neg (by omega)]
        exact ih (t + 5) t (lc t) (by omega) (by omega) h2 rfl
      · have heq : lc t = lastCount := le_antisymm (by omega) (h4 ▸ hmono lastAct t h1)
        simp only [if_neg hg]
        have hnoflag : ¬ 120 < t - lastAct := by
          intro hflag
          have hstep5 : lastAct + 125 ≤ t := by omega
          have hb : lastAct < 181 := by omega
          have hup : lc (lastAct + 120) ≤ lc t := hmono (lastAct + 120) t (by omega)
          have := hsteady lastAct hb
          omega
        rw [if_neg hnoflag]
        exact ih (t + 5) lastAct lastCount (by omega) (by omega) h3 h4
    · rw [if_neg ht]

theorem hangLoopF_silence (lc : Nat → Nat)
    (hmono : ∀ a b, a ≤ b → lc a ≤ lc b)
    (q : Nat) (hq5 : 5 ∣ q) (hq1 : 125 ≤ q) (hq2 : q ≤ 295)
    (hconst : lc (q - 125) = lc q) :
    ∀ (fuel t lastAct lastCount : Nat),
      lastAct ≤ t → t ≤ lastAct + 125 → 5 ∣ t → 5 ∣ lastAct →
      lc lastAct = lastCount →
      (t = 0 ∨ lc (t - 5) = lastCount) →
      (lastAct = 0 ∨ (5 ≤ lastAct ∧ lc (lastAct - 5) < lc lastAct)) →
      t ≤ q → q + 5 ≤ t + 5 * fuel →
      hangLoopF lc t lastAct lastCount fuel = false := by
  have hcw : ∀ u, q - 125 ≤ u → u ≤ q → lc u = lc q := by
    intro u hu1 hu2
    exact le_antisymm (hmono u q hu2) (hconst ▸ hmono (q - 125) u hu1)
  intro fuel
  induction fuel with
  | zero => intro t lastAct lastCount _ _ _ _ _ _ _ htq hfuel; omega
  | succ fuel ih =>
    intro t lastAct lastCount h1 h2 h3 h4 h5 h6 h7 htq hfuel
    unfold hangLoopF
    rw [if_pos (by omega)]
    dsimp only []
    by_cases htq2 : t = q
    · subst htq2
      have hla : t - 125 ≤ lastAct := by omega
      have hlaq : lc lastAct = lc t := hcw lastAct hla h1
      have hng : ¬ lastCount < lc t := by
        have := hcw t (by omega) (by omega)
        omega
      simp only [if_neg hng]
      rcases h7 with h0 | ⟨h5le, hgj⟩
      · rw [if_pos (by omega)]
      · have hexact : lastAct = t - 125 := by
          by_contra hne
          have hgap : t - 125 ≤ lastAct - 5 := by omega
          have e1 := hcw (lastAct - 5) hgap (by omega)
          omega
        rw [if_pos (by omega)]
    · have htlt : t < q := by omega
      by_cases hg : lastCount < lc t
      · simp only [if_pos hg, Nat.sub_self]
        rw [if_neg (by omega)]
        refine ih (t + 5) t (lc t) (by omega) (by omega) (by omega) h3 rfl
          (Or.inr (by simp)) ?_ (by omega) (by omega)
        rcases h6 with h0 | h6
        · exact Or.inl h0
        · by_cases ht0 : t = 0
          · exact Or.inl ht0
          · exact Or.inr ⟨by omega, by omega⟩
      · have heq : lc t = lastCount := le_antisymm (by omega) (h5 ▸ hmono lastAct t h1)
        simp only [if_neg hg]
        by_cases hflag : 120 < t - lastAct
        · rw [if_pos hflag]
        · rw [if_neg hflag]
          exact ih (t + 5) lastAct lastCount (by omega) (by omega) (by omega) h4 h5
            (Or.inr (by simpa using heq)) h7 (by omega) (by omega)

/-- Claim C6 (amended): with the monitoring loop polling every five seconds
and comparing strictly against the 120-second threshold, a stall is flagged
exactly at silence observable at the five-second grid: steady activity — a new
console line in every 120-second interval of the window — never produces a
stall flag, while a 125-second silence ending at a poll instant inside the
300-second window always produces one.  A silence that exceeds 120 seconds by
less than the poll granularity can go unflagged (see the counterexample). -/
theorem test_no_hang_characterization (lc : Nat → Nat)
    (hmono : ∀ a b, a ≤ b → lc a ≤ lc b) :
    ((∀ s, s < 181 → lc s < lc (s + 120)) → test_no_hang_between_passes lc = true) ∧
    (∀ q, 5 ∣ q → 125 ≤ q → q ≤ 295 → lc (q - 125) = lc q →
      test_no_hang_between_passes lc = false) := by
  constructor
  · intro hsteady
    exact hangLoopF_steady lc hmono hsteady 61 0 0 (lc 0) (by omega) (by omega) (by omega) rfl
  · intro q h5 h125 h295 hc
    exact hangLoopF_silence lc hmono q h5 h125 h295 hc 61 0 0 (lc 0) (by omega) (by omega)
      (by omega) (by omega) rfl (Or.inl rfl) (Or.inl rfl) (by omega) (by omega)

/-- Console-log count with lines arriving at seconds 1, 122 and 222: the gap
between the first two lines is 121 seconds, which exceeds the 120-second
threshold. -/
def burstLog : Nat → Nat :=
  fun s => if s < 1 then 0 else if s < 122 then 1 else if s < 222 then 2 else 3

/-- Claim C6 (counterexample): a 121-second silence — beyond the threshold —
between the lines at seconds 1 and 122 is never flagged: the five-second poll
observes the first line only at second 5 and the next line already at second
125, so the measured inactivity never exceeds 120 and the check returns
success. -/
theorem test_no_hang_gap_121_unflagged_cex :
    burstLog 0 = 0 ∧ burstLog 1 = 1 ∧ burstLog 121 = 1 ∧ burstLog 122 = 2 ∧
    test_no_hang_between_passes burstLog = true := by
  decide

/-- Claim C6 (witness): the characterization applied to a line-every-second
count (no stall) and to a count that never grows (stall flagged). -/
theorem test_no_hang_characterization_witness :
    test_no_hang_between_passes (fun s => s) = true ∧
    test_no_hang_between_passes (fun _ => 0) = false := by
  constructor
  · exact (test_no_hang_characterization (fun s => s) (fun a b h => h)).1
      (fun s _ => by omega)
  · exact (test_no_hang_characterization (fun _ => 0) (fun a b _ => le_refl 0)).2
      125 (by omega) (by omega) (by omega) rfl

theorem stripLit_self_append : ∀ (ps rest : List Char), stripLit ps (ps ++ rest) = some rest := by
  intro ps
  induction ps with
  | nil => intro rest; rfl
  | cons p ps ih => intro rest; simp [stripLit, ih]

theorem takeDigits_digits_append : ∀ (ds : List Char) (c : Char) (rest : List Char),
    (∀ x ∈ ds, x.isDigit = true) → c.isDigit = false →
    takeDigits (ds ++ c :: rest) = (ds, c :: rest) := by
  intro ds
  induction ds with
  | nil => intro c rest _ hc; simp [takeDigits, hc]
  | cons a ds ih =>
    intro c rest hd hc
    simp [takeDigits, hd a (by simp), ih c rest (fun x hx => hd x (by simp [hx])) hc]

theorem takeDigits_all : ∀ (ds : List Char), (∀ x ∈ ds, x.isDigit = true) →
    takeDigits ds = (ds, []) := by
  intro ds
  induction ds with
  | nil => intro _; rfl
  | cons a ds ih =>
    intro hd
    simp [takeDigits, hd a (by simp), ih (fun x hx => hd x (by simp [hx]))]

theorem searchAux_of_match {α : Type} (f : List Char → Option α) (l : List Char)
    (v : α) (h : f l = some v) : searchAux f l = some v := by
  cases l with
  | nil => simpa [searchAux] using h
  | cons c cs =>
    unfold searchAux
    rw [h]

theorem searchAux_skip {α : Type} (f : List Char → Option α) :
    ∀ (pre tail : List Char),
      (∀ n, n < pre.length → f (pre.drop n ++ tail) = none) →
      searchAux f (pre ++ tail) = searchAux f tail := by
  intro pre
  induction pre with
  | nil => intro tail _; rfl
  | cons c pre ih =>
    intro tail h
    have h0 : f ((c :: pre) ++ tail) = none := by simpa using h 0 (by simp)
    rw [List.cons_append]
    rw [show (c :: pre) ++ tail = c :: (pre ++ tail) from rfl] at h0
    conv_lhs => rw [searchAux]
    rw [h0]
    exact ih tail (fun n hn => by simpa using h (n + 1) (by simpa using hn))

theorem colon_expose (e : Char) (es : List Char) :
    (": current_pass=").data ++ (e :: es) = ':' :: ((" current_pass=").data ++ (e :: es)) := rfl

theorem matchAfterPassAt_shape (d e : Char) (ds es : List Char)
    (hd : ∀ x ∈ d :: ds, x.isDigit = true) (he : ∀ x ∈ e :: es, x.isDigit = true) :
    matchAfterPassAt (("[runPasses] After Pass ").data ++
        ((d :: ds) ++ (':' :: ((" current_pass=").data ++ (e :: es))))) =
      some (digitsToNat (d :: ds), digitsToNat (e :: es)) := by
  unfold matchAfterPassAt
  rw [stripLit_self_append]
  dsimp only []
  rw [takeDigits_digits_append (d :: ds) ':' ((" current_pass=").data ++ (e :: es)) hd
    (by decide)]
  dsimp only []
  rw [← colon_expose e es, stripLit_self_append]
  dsimp only []
  rw [takeDigits_all (e :: es) he]

theorem matchPassStartAt_digits (d : Char) (ds rest : List Char)
    (hd : ∀ x ∈ d :: ds, x.isDigit = true) :
    matchPassStartAt (("Pass ").data ++ ((d :: ds) ++ (':' :: rest))) =
      some (digitsToNat (d :: ds)) := by
  unfold matchPassStartAt
  rw [stripLit_self_append]
  dsimp only []
  rw [takeDigits_digits_append (d :: ds) ':' rest hd (by decide)]
  rfl

/-- Claim C8: a completion line `[runPasses] After Pass X: current_pass=Y`
also matches the `Pass (\d+):` start pattern at the substring `Pass X:`, so
when `X` exceeds the watermark the single line records the completion of `X`
and additionally records a start for `X` and raises `last_pass_seen` to `X`. -/
theorem completion_line_also_starts (d e : Char) (ds es : List Char) (m : Monitor) (t : Nat)
    (hd : ∀ x ∈ d :: ds, x.isDigit = true) (he : ∀ x ∈ e :: es, x.isDigit = true)
    (hgt : m.last_pass_seen < digitsToNat (d :: ds)) :
    m.on_console ("[runPasses] After Pass " ++ String.mk (d :: ds) ++
        ": current_pass=" ++ String.mk (e :: es)) t =
      { m with
        console_logs := m.console_logs ++ ["[runPasses] After Pass " ++ String.mk (d :: ds) ++
          ": current_pass=" ++ String.mk (e :: es)],
        pass_completes := dinsert (digitsToNat (d :: ds)) t m.pass_completes,
        pass_starts := dinsert (digitsToNat (d :: ds)) t m.pass_starts,
        last_pass_seen := digitsToNat (d :: ds) } := by
  have hdata : ("[runPasses] After Pass " ++ String.mk (d :: ds) ++
      ": current_pass=" ++ String.mk (e :: es)).data =
      ("[runPasses] After Pass ").data ++
        ((d :: ds) ++ ((": current_pass=").data ++ (e :: es))) := by
    simp [String.data_append]
  rw [colon_expose e es] at hdata
  have hAfter : searchAfterPass ("[runPasses] After Pass " ++ String.mk (d :: ds) ++
      ": current_pass=" ++ String.mk (e :: es)) =
      some (digitsToNat (d :: ds), digitsToNat (e :: es)) := by
    unfold searchAfterPass
    rw [hdata]
    exact searchAux_of_match matchAfterPassAt _ _ (matchAfterPassAt_shape d e ds es hd he)
  have hStart : searchPassStart ("[runPasses] After Pass " ++ String.mk (d :: ds) ++
      ": current_pass=" ++ String.mk (e :: es)) = some (digitsToNat (d :: ds)) := by
    have hnone : ∀ n, n < (("[runPasses] After ").data).length →
        matchPassStartAt ((("[runPasses] After ").data).drop n ++
          (("Pass ").data ++ ((d :: ds) ++
            (':' :: ((" current_pass=").data ++ (e :: es)))))) = none := by
      intro n hn
      have hn18 : n < 18 := by simpa using hn
      interval_cases n <;> rfl
    unfold searchPassStart
    rw [hdata,
      show ("[runPasses] After Pass ").data =
        ("[runPasses] After ").data ++ ("Pass ").data by decide,
      List.append_assoc, searchAux_skip matchPassStartAt (("[runPasses] After ").data) _ hnone]
    exact searchAux_of_match matchPassStartAt _ _
      (matchPassStartAt_digits d ds ((" current_pass=").data ++ (e :: es)) hd)
  unfold Monitor.on_console
  rw [hAfter, hStart]
  dsimp only []
  rw [if_pos hgt]

/-- Claim C8 (witness): the theorem applied to the literal completion line for
pass 8 on a fresh monitor — the one line records completion and start of 8 and
sets the watermark to 8. -/
theorem completion_line_also_starts_witness :
    initMonitor.on_console ("[runPasses] After Pass " ++ String.mk ['8'] ++
        ": current_pass=" ++ String.mk ['9']) 0 =
      { initMonitor with
        console_logs := ["[runPasses] After Pass 8: current_pass=9"],
        pass_completes := [(8, 0)],
        pass_starts := [(8, 0)],
        last_pass_seen := 8 } := by
  have h := completion_line_also_starts '8' '9' [] [] initMonitor 0
    (by decide) (by decide) (by decide)
  exact h.trans (by decide)

